import Mathlib

/-!
# Verification of the umodbus PDU codec (`umodbus/functions.py`)

A shallow embedding of the Modbus Protocol Data Unit codec.  Python byte
strings are modelled as `List Nat` (each entry a byte value `< 256`),
Python integers as `Int`, and fallible calls as `Except PyErr`.
`struct.pack` field formats `B`/`H`/`h` become the packers `packB`,
`packH`, `packh`, which fail with `PyErr.structError` exactly when the
value does not fit the field, as CPython's `struct` module does.
-/

namespace UModbus

/-- The failure modes of the codec: `ValueError msg` for the explicit
`raise ValueError(...)` statements, `structError` for a `struct.pack` /
`struct.unpack` failure (value out of range for a field, or buffer/argument
count mismatch), `typeError` for operations on `None`. -/
inductive PyErr where
  | valueError (msg : String)
  | structError
  | typeError
deriving DecidableEq

deriving instance DecidableEq for Except

/-- Modelled from the spec: `Const.READ_COILS` from `umodbus/const.py`, which is
not among the provided sources; spec §3 fixes ReadCoils=1. -/
def READ_COILS : Int := 0x01

/-- Modelled from the spec: ReadDiscreteInputs=2 (spec §3). -/
def READ_DISCRETE_INPUTS : Int := 0x02

/-- Modelled from the spec: ReadHoldingRegisters=3 (spec §3). -/
def READ_HOLDING_REGISTERS : Int := 0x03

/-- Modelled from the spec: ReadInputRegisters=4 (spec §3). -/
def READ_INPUT_REGISTER : Int := 0x04

/-- Modelled from the spec: WriteSingleCoil=5 (spec §3). -/
def WRITE_SINGLE_COIL : Int := 0x05

/-- Modelled from the spec: WriteSingleRegister=6 (spec §3). -/
def WRITE_SINGLE_REGISTER : Int := 0x06

/-- Modelled from the spec: WriteMultipleCoils=15 (spec §3). -/
def WRITE_MULTIPLE_COILS : Int := 0x0F

/-- Modelled from the spec: WriteMultipleRegisters=16 (spec §3). -/
def WRITE_MULTIPLE_REGISTERS : Int := 0x10

/-- Modelled from the spec: ErrorBias=0x80, added to a function code to mark an
exception response (spec §3). -/
def ERROR_BIAS : Int := 0x80

/-- `struct` format `B`: one unsigned byte; `struct.error` outside `0..0xFF`. -/
def packB (n : Int) : Except PyErr (List Nat) :=
  if 0 ≤ n ∧ n ≤ 0xFF then .ok [n.toNat] else .error .structError

/-- `struct` format `>H`: big-endian unsigned 16-bit; `struct.error` outside
`0..0xFFFF`. -/
def packH (n : Int) : Except PyErr (List Nat) :=
  if 0 ≤ n ∧ n ≤ 0xFFFF then .ok [n.toNat / 256, n.toNat % 256]
  else .error .structError

/-- `struct` format `>h`: big-endian signed 16-bit (two's complement);
`struct.error` outside `-0x8000..0x7FFF`. -/
def packh (n : Int) : Except PyErr (List Nat) :=
  if -0x8000 ≤ n ∧ n ≤ 0x7FFF then
    .ok [(n % 65536).toNat / 256, (n % 65536).toNat % 256]
  else .error .structError

/-- `read_coils(starting_address, quantity)` from `functions.py` lines 21-36:
quantity check `1 <= quantity <= 2000`, then `struct.pack('>BHH', ...)`. -/
def read_coils (starting_address quantity : Int) : Except PyErr (List Nat) :=
  if ¬ (1 ≤ quantity ∧ quantity ≤ 2000) then
    .error (.valueError "Invalid number of coils")
  else do
    let b ← packB READ_COILS
    let a ← packH starting_address
    let q ← packH quantity
    pure (b ++ a ++ q)

/-- `read_discrete_inputs` from `functions.py` lines 39-57. -/
def read_discrete_inputs (starting_address quantity : Int) :
    Except PyErr (List Nat) :=
  if ¬ (1 ≤ quantity ∧ quantity ≤ 2000) then
    .error (.valueError "Invalid number of discrete inputs")
  else do
    let b ← packB READ_DISCRETE_INPUTS
    let a ← packH starting_address
    let q ← packH quantity
    pure (b ++ a ++ q)

/-- `read_holding_registers` from `functions.py` lines 60-78. -/
def read_holding_registers (starting_address quantity : Int) :
    Except PyErr (List Nat) :=
  if ¬ (1 ≤ quantity ∧ quantity ≤ 125) then
    .error (.valueError "Invalid number of holding registers")
  else do
    let b ← packB READ_HOLDING_REGISTERS
    let a ← packH starting_address
    let q ← packH quantity
    pure (b ++ a ++ q)

/-- `read_input_registers` from `functions.py` lines 81-99. -/
def read_input_registers (starting_address quantity : Int) :
    Except PyErr (List Nat) :=
  if ¬ (1 ≤ quantity ∧ quantity ≤ 125) then
    .error (.valueError "Invalid number of input registers")
  else do
    let b ← packB READ_INPUT_REGISTER
    let a ← packH starting_address
    let q ← packH quantity
    pure (b ++ a ++ q)

/-- A Python value of static type `Union[int, bool]`, as taken by
`write_single_coil`.  Python compares and arithmetises `bool` as the
integers 0/1 (`True == 1`, `False == 0`), which `toInt` reflects. -/
inductive PyVal where
  | intVal (n : Int)
  | boolVal (b : Bool)
deriving DecidableEq

/-- The integer a `PyVal` compares equal to and packs as in Python. -/
def PyVal.toInt : PyVal → Int
  | .intVal n => n
  | .boolVal b => if b then 1 else 0

/-- `write_single_coil(output_address, output_value)` from `functions.py`
lines 102-127.  Python membership `output_value in [0x0000, 0xFF00, True]`
tests `==` elementwise, and `True == 1`, `False == 0`; a value not in the
list raises `ValueError('Illegal coil value')`.  A value outside
`[0x0000, 0xFF00]` (so the value 1/True) is normalised by truthiness to
`0xFF00`/`0x0000` before packing `'>BHH'`. -/
def write_single_coil (output_address : Int) (output_value : PyVal) :
    Except PyErr (List Nat) :=
  let v := output_value.toInt
  if ¬ (v = 0x0000 ∨ v = 0xFF00 ∨ v = 1) then
    .error (.valueError "Illegal coil value")
  else
    let v2 := if v = 0x0000 ∨ v = 0xFF00 then v
              else if v ≠ 0 then 0xFF00 else 0x0000
    do
      let b ← packB WRITE_SINGLE_COIL
      let a ← packH output_address
      let w ← packH v2
      pure (b ++ a ++ w)

/-- `write_single_register(register_address, register_value, signed=True)`
from `functions.py` lines 130-151: no range check of its own, packs
`'>BH'` plus `'h'` or `'H'` according to `signed`. -/
def write_single_register (register_address register_value : Int)
    (signed : Bool) : Except PyErr (List Nat) := do
  let b ← packB WRITE_SINGLE_REGISTER
  let a ← packH register_address
  let w ← if signed then packh register_value else packH register_value
  pure (b ++ a ++ w)

/-- Recursion core of `sectionList`; the `fuel` argument (instantiated with
the list length, which bounds the number of slices) only makes the
recursion structural, it never cuts the computation short. -/
def sectionGo : Nat → List Int → List (List Int)
  | _, [] => []
  | 0, _ :: _ => []
  | fuel + 1, a :: l => ((a :: l).take 8) :: sectionGo fuel ((a :: l).drop 8)

/-- The slicing `[value_list[i:i + 8] for i in range(0, len(value_list), 8)]`
shared by `write_multiple_coils` (line 170) and `response` (line 270). -/
def sectionList (l : List Int) : List (List Int) :=
  sectionGo l.length l

/-- The inner packing loop shared by `write_multiple_coils` (lines 176-178)
and `response` (lines 276-278): `output = 0`, then for each bit
`output = (output << 1) | bit`. -/
def packOutput (bits : List Int) : Int :=
  bits.foldl (fun output bit => Int.lor (output <<< (1 : Int)) bit) 0

/-- The full bit-packing of a coil value list: one folded output value per
8-element section (`output_value` list in the source). -/
def coil_to_bytes (value_list : List Int) : List Int :=
  (sectionList value_list).map packOutput

/-- `struct` format `'B' * len(l)`: pack each value as one unsigned byte. -/
def packBytes : List Int → Except PyErr (List Nat)
  | [] => .ok []
  | v :: vs => do
    let b ← packB v
    let rest ← packBytes vs
    pure (b ++ rest)

/-- `struct` format `('h' if signed else 'H') * len(l)`. -/
def packRegsUniform (signed : Bool) : List Int → Except PyErr (List Nat)
  | [] => .ok []
  | v :: vs => do
    let b ← if signed then packh v else packH v
    let rest ← packRegsUniform signed vs
    pure (b ++ rest)

/-- `write_multiple_coils(starting_address, value_list)` from `functions.py`
lines 154-188: quantity check `1 <= len <= 0x07B0`, bit packing, then
`struct.pack('>BHHB' + 'B'*k, code, addr, len, ((len-1)//8)+1, *packed)`.
Python `//` is floor division, `Int.fdiv` here. -/
def write_multiple_coils (starting_address : Int) (value_list : List Int) :
    Except PyErr (List Nat) :=
  if ¬ (1 ≤ value_list.length ∧ value_list.length ≤ 0x07B0) then
    .error (.valueError "Invalid quantity of outputs")
  else do
    let b ← packB WRITE_MULTIPLE_COILS
    let a ← packH starting_address
    let q ← packH value_list.length
    let c ← packB (Int.fdiv ((value_list.length : Int) - 1) 8 + 1)
    let pb ← packBytes (coil_to_bytes value_list)
    pure (b ++ a ++ q ++ c ++ pb)

/-- `write_multiple_registers(starting_address, register_values, signed=True)`
from `functions.py` lines 191-218: quantity check `1 <= len <= 123`, then
`struct.pack('>BHHB' + fmt, code, addr, quantity, quantity*2, *values)`. -/
def write_multiple_registers (starting_address : Int)
    (register_values : List Int) (signed : Bool) : Except PyErr (List Nat) :=
  if ¬ (1 ≤ register_values.length ∧ register_values.length ≤ 123) then
    .error (.valueError "Invalid number of registers")
  else do
    let b ← packB WRITE_MULTIPLE_REGISTERS
    let a ← packH starting_address
    let q ← packH register_values.length
    let c ← packB (2 * (register_values.length : Int))
    let pr ← packRegsUniform signed register_values
    pure (b ++ a ++ q ++ c ++ pr)

/-- `struct.unpack` of one big-endian unsigned 16-bit field from two bytes. -/
def unpackHu (b0 b1 : Nat) : Int := (b0 : Int) * 256 + (b1 : Int)

/-- `struct.unpack` of one big-endian signed 16-bit field from two bytes. -/
def unpackHs (b0 b1 : Nat) : Int :=
  let u := (b0 : Int) * 256 + (b1 : Int)
  if 0x8000 ≤ u then u - 0x10000 else u

/-- `validate_resp_data(data, function_code, address, value=None,
quantity=None, signed=True)` from `functions.py` lines 221-260.
`struct.unpack('>H?', data)` raises `struct.error` unless `data` is exactly
4 bytes; `value`/`quantity` default to `None` (`Option.none` here), and in
Python `None == n` is `False` for every int `n`. -/
def validate_resp_data (data : List Nat) (function_code : Int)
    (address : Int) (value : Option Int) (quantity : Option Int)
    (signed : Bool) : Except PyErr Bool :=
  if function_code = WRITE_SINGLE_COIL ∨
     function_code = WRITE_SINGLE_REGISTER then
    match data with
    | [b0, b1, b2, b3] =>
      let resp_addr := unpackHu b0 b1
      let resp_value := if signed then unpackHs b2 b3 else unpackHu b2 b3
      if address = resp_addr ∧ value = some resp_value then .ok true
      else .ok false
    | _ => .error .structError
  else if function_code = WRITE_MULTIPLE_COILS ∨
          function_code = WRITE_MULTIPLE_REGISTERS then
    match data with
    | [b0, b1, b2, b3] =>
      let resp_addr := unpackHu b0 b1
      let resp_qty := if signed then unpackHs b2 b3 else unpackHu b2 b3
      if address = resp_addr ∧ quantity = some resp_qty then .ok true
      else .ok false
    | _ => .error .structError
  else
    .ok false

/-- The `signed` argument of `response`: Python allows a single bool applied
uniformly or a per-element sequence of bools (`functions.py` lines 294-299). -/
inductive SignedArg where
  | uniform (b : Bool)
  | perValue (flags : List Bool)
deriving DecidableEq

/-- `struct` format built per element from a list of signedness flags
(`functions.py` lines 297-299); `struct.pack` fails when the number of
format codes differs from the number of arguments. -/
def packRegsFlags : List Bool → List Int → Except PyErr (List Nat)
  | [], [] => .ok []
  | s :: ss, v :: vs => do
    let b ← if s then packh v else packH v
    let rest ← packRegsFlags ss vs
    pure (b ++ rest)
  | _, _ => .error .structError

/-- `response(function_code, request_register_addr, request_register_qty,
request_data, value_list=None, signed=True)` from `functions.py` lines
263-318.  An unknown function code falls through every `elif` and Python
returns `None` (`Option.none` here); slicing or `len` of a `None`
`value_list` raises `TypeError`. -/
def response (function_code : Int) (request_register_addr : Int)
    (request_register_qty : Int) (request_data : List Int)
    (value_list : Option (List Int)) (signed : SignedArg) :
    Except PyErr (Option (List Nat)) :=
  if function_code = READ_COILS ∨ function_code = READ_DISCRETE_INPUTS then
    match value_list with
    | none => .error .typeError
    | some vl => do
      let b ← packB function_code
      let c ← packB (Int.fdiv ((vl.length : Int) - 1) 8 + 1)
      let pb ← packBytes (coil_to_bytes vl)
      pure (some (b ++ c ++ pb))
  else if function_code = READ_HOLDING_REGISTERS ∨
          function_code = READ_INPUT_REGISTER then
    match value_list with
    | none => .error .typeError
    | some vl =>
      if ¬ (0x0001 ≤ vl.length ∧ vl.length ≤ 0x007D) then
        .error (.valueError "invalid number of registers")
      else do
        let b ← packB function_code
        let c ← packB (2 * (vl.length : Int))
        let pr ← match signed with
          | .uniform s => packRegsUniform s vl
          | .perValue flags => packRegsFlags flags vl
        pure (some (b ++ c ++ pr))
  else if function_code = WRITE_SINGLE_COIL ∨
          function_code = WRITE_SINGLE_REGISTER then
    match request_data with
    | [d0, d1] => do
      let b ← packB function_code
      let a ← packH request_register_addr
      let x0 ← packB d0
      let x1 ← packB d1
      pure (some (b ++ a ++ x0 ++ x1))
    | _ => .error .structError
  else if function_code = WRITE_MULTIPLE_COILS ∨
          function_code = WRITE_MULTIPLE_REGISTERS then do
    let b ← packB function_code
    let a ← packH request_register_addr
    let q ← packH request_register_qty
    pure (some (b ++ a ++ q))
  else
    .ok none

/-- `exception_response(function_code, exception_code)` from `functions.py`
lines 321-322: `struct.pack('>BB', Const.ERROR_BIAS + function_code,
exception_code)`. -/
def exception_response (function_code exception_code : Int) :
    Except PyErr (List Nat) := do
  let b ← packB (ERROR_BIAS + function_code)
  let c ← packB exception_code
  pure (b ++ c)

/-- The bit-packing as the spec and claim C1 word it: a final group shorter
than 8 is zero-padded on the RIGHT before the fold, so the first bit of
every group would land in the most-significant position of its byte.  This
definition follows the claim's words, to be compared with `packOutput`,
which follows the source. -/
def packOutputPadRight (bits : List Int) : Int :=
  packOutput (bits ++ List.replicate (8 - bits.length) 0)

/-- The whole packed output as claim C1 words it (right-padded groups). -/
def coil_to_bytes_claim (value_list : List Int) : List Int :=
  (sectionList value_list).map packOutputPadRight

end UModbus

namespace UModbus

/-! ## Helper lemmas about the packers -/

/-- `packB` succeeds on a byte-sized value. -/
lemma packB_ok (n : Int) (h1 : 0 ≤ n) (h2 : n ≤ 0xFF) :
    packB n = .ok [n.toNat] := by
  simp [packB, h1, h2]

/-- `packH` succeeds on an unsigned 16-bit value. -/
lemma packH_ok (n : Int) (h1 : 0 ≤ n) (h2 : n ≤ 0xFFFF) :
    packH n = .ok [n.toNat / 256, n.toNat % 256] := by
  simp [packH, h1, h2]

/-- `packh` succeeds on a signed 16-bit value. -/
lemma packh_ok (n : Int) (h1 : -0x8000 ≤ n) (h2 : n ≤ 0x7FFF) :
    packh n = .ok [(n % 65536).toNat / 256, (n % 65536).toNat % 256] := by
  simp [packh, h1, h2]

/-- In-range `read_coils` requests produce the 5-byte PDU. -/
lemma read_coils_ok (addr q : Int) (ha0 : 0 ≤ addr) (ha1 : addr ≤ 0xFFFF)
    (hq : 1 ≤ q ∧ q ≤ 2000) :
    read_coils addr q =
      .ok [1, addr.toNat / 256, addr.toNat % 256, q.toNat / 256, q.toNat % 256] := by
  rw [read_coils, if_neg (not_not_intro hq)]
  rw [show READ_COILS = (1 : Int) from rfl]
  rw [packB_ok 1 (by omega) (by omega), packH_ok addr ha0 ha1,
    packH_ok q (by omega) (by omega)]
  rfl

/-- In-range `read_discrete_inputs` requests produce the 5-byte PDU. -/
lemma read_discrete_inputs_ok (addr q : Int) (ha0 : 0 ≤ addr)
    (ha1 : addr ≤ 0xFFFF) (hq : 1 ≤ q ∧ q ≤ 2000) :
    read_discrete_inputs addr q =
      .ok [2, addr.toNat / 256, addr.toNat % 256, q.toNat / 256, q.toNat % 256] := by
  rw [read_discrete_inputs, if_neg (not_not_intro hq)]
  rw [show READ_DISCRETE_INPUTS = (2 : Int) from rfl]
  rw [packB_ok 2 (by omega) (by omega), packH_ok addr ha0 ha1,
    packH_ok q (by omega) (by omega)]
  rfl

/-- In-range `read_holding_registers` requests produce the 5-byte PDU. -/
lemma read_holding_registers_ok (addr q : Int) (ha0 : 0 ≤ addr)
    (ha1 : addr ≤ 0xFFFF) (hq : 1 ≤ q ∧ q ≤ 125) :
    read_holding_registers addr q =
      .ok [3, addr.toNat / 256, addr.toNat % 256, q.toNat / 256, q.toNat % 256] := by
  rw [read_holding_registers, if_neg (not_not_intro hq)]
  rw [show READ_HOLDING_REGISTERS = (3 : Int) from rfl]
  rw [packB_ok 3 (by omega) (by omega), packH_ok addr ha0 ha1,
    packH_ok q (by omega) (by omega)]
  rfl

/-- In-range `read_input_registers` requests produce the 5-byte PDU. -/
lemma read_input_registers_ok (addr q : Int) (ha0 : 0 ≤ addr)
    (ha1 : addr ≤ 0xFFFF) (hq : 1 ≤ q ∧ q ≤ 125) :
    read_input_registers addr q =
      .ok [4, addr.toNat / 256, addr.toNat % 256, q.toNat / 256, q.toNat % 256] := by
  rw [read_input_registers, if_neg (not_not_intro hq)]
  rw [show READ_INPUT_REGISTER = (4 : Int) from rfl]
  rw [packB_ok 4 (by omega) (by omega), packH_ok addr ha0 ha1,
    packH_ok q (by omega) (by omega)]
  rfl

/-! ## Helper lemmas about the bit packing -/

/-- Casting `Int.lor` from the natural numbers. -/
lemma int_lor_coe (a b : Nat) :
    Int.lor (a : Int) (b : Int) = ((a ||| b : Nat) : Int) := rfl

/-- One step of the packing loop on a nonnegative accumulator and a bit:
`(output << 1) | bit = 2 * output + bit`. -/
lemma packStep (x b : Int) (hx : 0 ≤ x) (hb : b = 0 ∨ b = 1) :
    Int.lor (x <<< (1 : Int)) b = 2 * x + b := by
  obtain ⟨a, rfl⟩ : ∃ a : Nat, x = (a : Int) := ⟨x.toNat, (Int.toNat_of_nonneg hx).symm⟩
  have hs : ((a : Int) <<< (1 : Int)) = ((a <<< 1 : Nat) : Int) := by
    simpa using Int.shiftLeft_coe_nat a 1
  rcases hb with rfl | rfl
  · rw [hs, show (0 : Int) = ((0 : Nat) : Int) from rfl, int_lor_coe]
    simp [Nat.shiftLeft_eq]
    ring
  · rw [hs, show (1 : Int) = ((1 : Nat) : Int) from rfl, int_lor_coe]
    have h2 : (a <<< 1) ||| 1 = 2 * a + 1 := by
      have h := Nat.lor_bit false a true 0
      simpa [Nat.bit, Nat.shiftLeft_eq, Nat.mul_comm] using h
    rw [h2]
    push_cast
    ring

/-- The folded output of a bit group is nonnegative and below `2 ^ length`. -/
lemma packOutput_nonneg_lt (g : List Int) (hb : ∀ b ∈ g, b = 0 ∨ b = 1) :
    0 ≤ packOutput g ∧ packOutput g < 2 ^ g.length := by
  induction g using List.reverseRecOn with
  | nil => simp [packOutput]
  | append_singleton g b ih =>
    have hbg : ∀ x ∈ g, x = 0 ∨ x = 1 := fun x hx => hb x (by simp [hx])
    have hbb : b = 0 ∨ b = 1 := hb b (by simp)
    obtain ⟨h0, h1⟩ := ih hbg
    have hfold : packOutput (g ++ [b]) = 2 * packOutput g + b := by
      simp only [packOutput, List.foldl_append, List.foldl_cons, List.foldl_nil]
      exact packStep _ b h0 hbb
    constructor
    · rw [hfold]; rcases hbb with rfl | rfl <;> omega
    · rw [hfold, List.length_append]
      have h2 : (2 : Int) ^ (g.length + 1) = 2 * 2 ^ g.length := by ring
      simp only [List.length_singleton]
      rcases hbb with rfl | rfl <;> · rw [h2]; omega

/-- Positional value of the packing loop on a bit group: bit `i` of the
group carries weight `2 ^ (length - 1 - i)`, so the fold is most significant
bit first; a group shorter than 8 is effectively zero-extended on its
most-significant side. -/
lemma packOutput_eq (g : List Int) (hb : ∀ b ∈ g, b = 0 ∨ b = 1) :
    packOutput g =
      ∑ i ∈ Finset.range g.length, g.getD i 0 * 2 ^ (g.length - 1 - i) := by
  induction g using List.reverseRecOn with
  | nil => simp [packOutput]
  | append_singleton g b ih =>
    have hbg : ∀ x ∈ g, x = 0 ∨ x = 1 := fun x hx => hb x (by simp [hx])
    have hbb : b = 0 ∨ b = 1 := hb b (by simp)
    have h0 := (packOutput_nonneg_lt g hbg).1
    have hfold : packOutput (g ++ [b]) = 2 * packOutput g + b := by
      simp only [packOutput, List.foldl_append, List.foldl_cons, List.foldl_nil]
      exact packStep _ b h0 hbb
    rw [hfold, ih hbg]
    rw [List.length_append, List.length_singleton]
    rw [Finset.sum_range_succ]
    have hlast : (g ++ [b]).getD g.length 0 = b := by
      simp [List.getD_eq_getElem?_getD]
    rw [hlast]
    simp only [Nat.add_sub_cancel, Nat.sub_self, pow_zero, mul_one]
    rw [Finset.mul_sum]
    congr 1
    apply Finset.sum_congr rfl
    intro i hi
    have hi8 : i < g.length := Finset.mem_range.mp hi
    have hgi : (g ++ [b]).getD i 0 = g.getD i 0 := by
      rw [List.getD_eq_getElem?_getD, List.getD_eq_getElem?_getD,
        List.getElem?_append_left hi8]
    rw [hgi]
    have hexp : g.length - i = (g.length - 1 - i) + 1 := by omega
    rw [hexp]
    ring

/-- The fuel argument of `sectionGo` is irrelevant once it bounds the
list length. -/
lemma sectionGo_fuel (f1 : Nat) : ∀ (f2 : Nat) (l : List Int),
    l.length ≤ f1 → l.length ≤ f2 → sectionGo f1 l = sectionGo f2 l := by
  induction f1 with
  | zero =>
    intro f2 l h1 _
    have hl : l = [] := List.eq_nil_of_length_eq_zero (Nat.le_zero.mp h1)
    subst hl
    cases f2 <;> rfl
  | succ n ih =>
    intro f2 l h1 h2
    cases l with
    | nil => cases f2 <;> rfl
    | cons a l =>
      cases f2 with
      | zero => simp at h2
      | succ m =>
        simp only [sectionGo]
        congr 1
        apply ih
        · simp only [List.length_drop, List.length_cons]
          simp only [List.length_cons] at h1
          omega
        · simp only [List.length_drop, List.length_cons]
          simp only [List.length_cons] at h2
          omega

/-- Unfolding of the slicing on a nonempty list: first an 8-element slice,
then the slices of the rest, exactly as `range(0, len, 8)` iterates. -/
lemma sectionList_cons (a : Int) (l : List Int) :
    sectionList (a :: l) = (a :: l).take 8 :: sectionList ((a :: l).drop 8) := by
  show sectionGo (l.length + 1) (a :: l) = _
  simp only [sectionGo]
  congr 1
  apply sectionGo_fuel
  · simp only [List.length_drop, List.length_cons]; omega
  · exact le_rfl

/-- A nonempty list is cut into `(length - 1) / 8 + 1` slices. -/
lemma sectionList_length (l : List Int) (h : l ≠ []) :
    (sectionList l).length = (l.length - 1) / 8 + 1 := by
  generalize hn : l.length = n
  induction n using Nat.strong_induction_on generalizing l with
  | _ n ih =>
    cases l with
    | nil => exact absurd rfl h
    | cons a l =>
      simp only [List.length_cons] at hn
      rw [sectionList_cons, List.length_cons]
      by_cases h8 : (a :: l).drop 8 = []
      · rw [h8]
        have hle : l.length + 1 ≤ 8 := by
          have h9 := congrArg List.length h8
          simp only [List.length_drop, List.length_cons, List.length_nil] at h9
          omega
        simp only [sectionList, sectionGo, List.length_nil]
        omega
      · have hlen : ((a :: l).drop 8).length = l.length + 1 - 8 := by
          simp [List.length_drop]
        have hpos := List.length_pos.mpr h8
        rw [hlen] at hpos
        have hlt : ((a :: l).drop 8).length < n := by omega
        rw [ih _ hlt _ h8 rfl, hlen]
        omega

/-- Slice `k` of the sectioning is `l[8k : 8k+8]`. -/
lemma sectionList_getD : ∀ (l : List Int) (k : Nat),
    (sectionList l).getD k [] = (l.drop (8 * k)).take 8 := by
  intro l
  generalize hn : l.length = n
  induction n using Nat.strong_induction_on generalizing l with
  | _ n ih =>
    intro k
    cases l with
    | nil => simp [sectionList, sectionGo]
    | cons a l =>
      simp only [List.length_cons] at hn
      rw [sectionList_cons]
      cases k with
      | zero => simp
      | succ k =>
        simp only [List.getD_cons_succ]
        by_cases h8 : (a :: l).drop 8 = []
        · rw [h8]
          have h9 := congrArg List.length h8
          simp only [List.length_drop, List.length_cons, List.length_nil] at h9
          have hdk : (a :: l).drop (8 * (k + 1)) = [] := by
            apply List.eq_nil_of_length_eq_zero
            simp only [List.length_drop, List.length_cons]
            omega
          rw [hdk]
          simp [sectionList, sectionGo]
        · have hlen : ((a :: l).drop 8).length = l.length + 1 - 8 := by
            simp [List.length_drop]
          have hpos := List.length_pos.mpr h8
          rw [hlen] at hpos
          have hlt : ((a :: l).drop 8).length < n := by omega
          rw [ih _ hlt _ rfl k, List.drop_drop]
          congr 2
          ring

/-- Reading an element of a slice through the original list. -/
lemma getD_take_drop (l : List Int) (k i : Nat) (hi : i < 8) :
    ((l.drop (8 * k)).take 8).getD i 0 = l.getD (8 * k + i) 0 := by
  rw [List.getD_eq_getElem?_getD, List.getD_eq_getElem?_getD]
  rw [List.getElem?_take, List.getElem?_drop]
  simp [hi]

/-- Every slice produced by the sectioning is some `l[8k : 8k+8]`. -/
lemma sectionGo_mem (fuel : Nat) : ∀ (l g : List Int), g ∈ sectionGo fuel l →
    ∃ k, g = (l.drop (8 * k)).take 8 := by
  induction fuel with
  | zero =>
    intro l g hg
    cases l <;> simp [sectionGo] at hg
  | succ n ih =>
    intro l g hg
    cases l with
    | nil => simp [sectionGo] at hg
    | cons a l =>
      simp only [sectionGo, List.mem_cons] at hg
      rcases hg with rfl | hg
      · exact ⟨0, by simp⟩
      · obtain ⟨k, rfl⟩ := ih _ _ hg
        refine ⟨k + 1, ?_⟩
        rw [List.drop_drop]
        congr 2
        ring

/-- Every packed coil byte of a bit list fits in one unsigned byte. -/
lemma coil_to_bytes_range (l : List Int) (hb : ∀ b ∈ l, b = 0 ∨ b = 1) :
    ∀ v ∈ coil_to_bytes l, 0 ≤ v ∧ v ≤ 255 := by
  intro v hv
  rw [coil_to_bytes, List.mem_map] at hv
  obtain ⟨g, hgmem, rfl⟩ := hv
  obtain ⟨k, rfl⟩ := sectionGo_mem _ _ _ hgmem
  set g : List Int := (l.drop (8 * k)).take 8 with hg
  have hgbits : ∀ b ∈ g, b = 0 ∨ b = 1 := by
    intro b hbm
    exact hb b (List.drop_subset _ _ (List.take_subset _ _ hbm))
  obtain ⟨h0, h1⟩ := packOutput_nonneg_lt g hgbits
  refine ⟨h0, ?_⟩
  have hglen : g.length ≤ 8 := by
    rw [hg, List.length_take]
    omega
  have hpow : (2 : Int) ^ g.length ≤ 2 ^ 8 :=
    pow_le_pow_right₀ (by norm_num) hglen
  omega

/-- The `'B' * n` packing succeeds on byte-sized values. -/
lemma packBytes_ok : ∀ (vs : List Int), (∀ v ∈ vs, 0 ≤ v ∧ v ≤ 255) →
    ∃ bs, packBytes vs = .ok bs := by
  intro vs
  induction vs with
  | nil => exact fun _ => ⟨[], rfl⟩
  | cons v vs ih =>
    intro h
    obtain ⟨bs, hbs⟩ := ih (fun x hx => h x (List.mem_cons_of_mem _ hx))
    obtain ⟨h0, h1⟩ := h v (List.mem_cons_self _ _)
    refine ⟨v.toNat :: bs, ?_⟩
    rw [packBytes, packB_ok v h0 h1, hbs]
    rfl

/-- Register packing succeeds on values in the range selected by `signed`. -/
lemma packRegsUniform_ok : ∀ (signed : Bool) (vs : List Int),
    (∀ v ∈ vs, if signed then -0x8000 ≤ v ∧ v ≤ 0x7FFF
               else 0 ≤ v ∧ v ≤ 0xFFFF) →
    ∃ bs, packRegsUniform signed vs = .ok bs := by
  intro signed vs
  induction vs with
  | nil => exact fun _ => ⟨[], rfl⟩
  | cons v vs ih =>
    intro h
    obtain ⟨bs, hbs⟩ := ih (fun x hx => h x (List.mem_cons_of_mem _ hx))
    have hv := h v (List.mem_cons_self _ _)
    cases signed with
    | true =>
      simp only [if_pos] at hv
      refine ⟨(v % 65536).toNat / 256 :: (v % 65536).toNat % 256 :: bs, ?_⟩
      rw [packRegsUniform, packh_ok v hv.1 hv.2, hbs]
      rfl
    | false =>
      simp only [Bool.false_eq_true, if_false] at hv
      refine ⟨v.toNat / 256 :: v.toNat % 256 :: bs, ?_⟩
      rw [packRegsUniform, packH_ok v hv.1 hv.2, hbs]
      rfl

/-! ## The claims -/

/-- C1 (amended): the coil bit-packing partitions the input into consecutive
groups of at most 8 and folds each group in order as
`byte = (byte << 1) | bit`; the packed output has `((n - 1) / 8) + 1` bytes
for `n ≥ 1` input bits, and byte `k` equals the positional sum in which bit
`i` of its group weighs `2 ^ (groupLength - 1 - i)` — so the first bit of a
full group of 8 lands in the most-significant position, while a final group
shorter than 8 is implicitly zero-padded on the LEFT (its first bit lands at
position `groupLength - 1`), not on the right as the claim states. -/
theorem C1_coil_bit_packing (value_list : List Int)
    (hb : ∀ b ∈ value_list, b = 0 ∨ b = 1) (hn : value_list ≠ []) :
    (coil_to_bytes value_list).length = (value_list.length - 1) / 8 + 1 ∧
    ∀ k, k < (coil_to_bytes value_list).length →
      (coil_to_bytes value_list).getD k 0 =
        ∑ i ∈ Finset.range (min 8 (value_list.length - 8 * k)),
          value_list.getD (8 * k + i) 0 *
            2 ^ (min 8 (value_list.length - 8 * k) - 1 - i) := by
  have hlen : (coil_to_bytes value_list).length = (value_list.length - 1) / 8 + 1 := by
    rw [coil_to_bytes, List.length_map, sectionList_length _ hn]
  refine ⟨hlen, ?_⟩
  intro k hk
  have hk2 : k < (sectionList value_list).length := by
    rw [coil_to_bytes, List.length_map] at hk
    exact hk
  rw [coil_to_bytes, List.getD_eq_getElem _ _ (by rw [List.length_map]; exact hk2),
    List.getElem_map]
  have hsec : (sectionList value_list)[k] = (value_list.drop (8 * k)).take 8 := by
    rw [← List.getD_eq_getElem (sectionList value_list) [] hk2]
    exact sectionList_getD value_list k
  rw [hsec]
  set g : List Int := (value_list.drop (8 * k)).take 8 with hg
  have hgbits : ∀ b ∈ g, b = 0 ∨ b = 1 := by
    intro b hbm
    exact hb b (List.drop_subset _ _ (List.take_subset _ _ hbm))
  have hglen : g.length = min 8 (value_list.length - 8 * k) := by
    rw [hg, List.length_take, List.length_drop]
  rw [packOutput_eq g hgbits, hglen]
  apply Finset.sum_congr rfl
  intro i hi
  have hi8 : i < 8 := by
    have := Finset.mem_range.mp hi
    omega
  rw [hg, getD_take_drop value_list k i hi8]

/-- C1 counterexample: on the single bit `[1]` the source packs the byte `1`
(bit in the least-significant position), while the claimed right-padding of
the short final group would pack `[1,0,0,0,0,0,0,0]`, i.e. the byte `128`. -/
theorem C1_right_padding_counterexample :
    coil_to_bytes [1] = [1] ∧ coil_to_bytes_claim [1] = [128] ∧
    coil_to_bytes [1] ≠ coil_to_bytes_claim [1] := by
  decide

/-- C1 witness: packing the 9 bits `[1,0,1,1,0,0,0,1,1]` yields the two
bytes `[177, 1]`, where `177 = 0b10110001` and the final 1-bit group packs
as `1`. -/
theorem C1_coil_bit_packing_witness :
    (coil_to_bytes [1, 0, 1, 1, 0, 0, 0, 1, 1]).length = 2 ∧
    (coil_to_bytes [1, 0, 1, 1, 0, 0, 0, 1, 1]).getD 0 0 = 177 ∧
    (coil_to_bytes [1, 0, 1, 1, 0, 0, 0, 1, 1]).getD 1 0 = 1 := by
  have h := C1_coil_bit_packing [1, 0, 1, 1, 0, 0, 0, 1, 1] (by decide) (by decide)
  refine ⟨by rw [h.1]; decide, ?_, ?_⟩
  · rw [h.2 0 (by decide)]
    decide
  · rw [h.2 1 (by decide)]
    decide

/-- C2 (amended): `validate_resp_data` returns a boolean whenever the
response buffer is exactly 4 bytes long, and for every function code other
than the four write codes it returns `false` without touching the buffer;
but for a write function code and a buffer whose length differs from 4,
`struct.unpack` raises, so it does not return a boolean for every byte
sequence. -/
theorem C2_validate_totality (data : List Nat) (fc addr : Int)
    (value quantity : Option Int) (signed : Bool)
    (h : data.length = 4 ∨
      (fc ≠ WRITE_SINGLE_COIL ∧ fc ≠ WRITE_SINGLE_REGISTER ∧
       fc ≠ WRITE_MULTIPLE_COILS ∧ fc ≠ WRITE_MULTIPLE_REGISTERS)) :
    ∃ b : Bool, validate_resp_data data fc addr value quantity signed = .ok b := by
  rw [validate_resp_data.eq_def]
  by_cases h56 : fc = WRITE_SINGLE_COIL ∨ fc = WRITE_SINGLE_REGISTER
  · rw [if_pos h56]
    have h4 : data.length = 4 := by
      rcases h with h | h
      · exact h
      · rcases h56 with rfl | rfl
        · exact absurd rfl h.1
        · exact absurd rfl h.2.1
    rcases data with _ | ⟨b0, _ | ⟨b1, _ | ⟨b2, _ | ⟨b3, _ | ⟨b4, rest⟩⟩⟩⟩⟩ <;>
      simp only [List.length_cons, List.length_nil] at h4 <;> try omega
    dsimp only
    split <;> split <;> first | exact ⟨true, rfl⟩ | exact ⟨false, rfl⟩
  · rw [if_neg h56]
    by_cases h1516 : fc = WRITE_MULTIPLE_COILS ∨ fc = WRITE_MULTIPLE_REGISTERS
    · rw [if_pos h1516]
      have h4 : data.length = 4 := by
        rcases h with h | h
        · exact h
        · rcases h1516 with rfl | rfl
          · exact absurd rfl h.2.2.1
          · exact absurd rfl h.2.2.2
      rcases data with _ | ⟨b0, _ | ⟨b1, _ | ⟨b2, _ | ⟨b3, _ | ⟨b4, rest⟩⟩⟩⟩⟩ <;>
        simp only [List.length_cons, List.length_nil] at h4 <;> try omega
      dsimp only
      split <;> split <;> first | exact ⟨true, rfl⟩ | exact ⟨false, rfl⟩
    · rw [if_neg h1516]
      exact ⟨false, rfl⟩

/-- C2 counterexample: validating an empty response buffer for
WriteSingleCoil hits `struct.unpack` with a buffer of the wrong size, which
raises `struct.error` instead of returning a boolean. -/
theorem C2_raises_counterexample :
    validate_resp_data [] WRITE_SINGLE_COIL 0 none none true =
      .error .structError := rfl

/-- C2 witness: a 4-byte buffer always yields a boolean. -/
theorem C2_validate_totality_witness :
    ∃ b : Bool,
      validate_resp_data [0, 0, 0, 0] WRITE_SINGLE_COIL 0 none none true = .ok b :=
  C2_validate_totality [0, 0, 0, 0] WRITE_SINGLE_COIL 0 none none true
    (Or.inl (by decide))

/-- C3 (amended): `write_single_register` returns a PDU exactly when the
address fits unsigned 16-bit and the value fits the 16-bit representation
selected by the `signed` flag; outside those ranges `struct.pack` fails with
`struct.error`, a third failure kind beside InvalidQuantity/IllegalValue, so
the operation does not return a PDU for every integer register value. -/
theorem C3_write_single_register_pdu (addr value : Int) (signed : Bool) :
    (∃ pdu, write_single_register addr value signed = .ok pdu) ↔
      ((0 ≤ addr ∧ addr ≤ 0xFFFF) ∧
        (if signed then -0x8000 ≤ value ∧ value ≤ 0x7FFF
         else 0 ≤ value ∧ value ≤ 0xFFFF)) := by
  rw [write_single_register]
  rw [show packB WRITE_SINGLE_REGISTER = .ok [6] from rfl]
  cases signed with
  | true =>
    simp only [eq_self_iff_true, if_true]
    constructor
    · rintro ⟨pdu, hp⟩
      by_cases ha : 0 ≤ addr ∧ addr ≤ 0xFFFF
      · refine ⟨ha, ?_⟩
        rw [packH_ok addr ha.1 ha.2] at hp
        by_cases hv : -0x8000 ≤ value ∧ value ≤ 0x7FFF
        · exact hv
        · rw [packh, if_neg hv] at hp
          exact Except.noConfusion hp
      · rw [packH, if_neg ha] at hp
        exact Except.noConfusion hp
    · rintro ⟨ha, hv⟩
      rw [packH_ok addr ha.1 ha.2, packh_ok value hv.1 hv.2]
      exact ⟨_, rfl⟩
  | false =>
    simp only [Bool.false_eq_true, if_false]
    constructor
    · rintro ⟨pdu, hp⟩
      by_cases ha : 0 ≤ addr ∧ addr ≤ 0xFFFF
      · refine ⟨ha, ?_⟩
        rw [packH_ok addr ha.1 ha.2] at hp
        by_cases hv : 0 ≤ value ∧ value ≤ 0xFFFF
        · exact hv
        · rw [packH, if_neg hv] at hp
          exact Except.noConfusion hp
      · rw [packH, if_neg ha] at hp
        exact Except.noConfusion hp
    · rintro ⟨ha, hv⟩
      rw [packH_ok addr ha.1 ha.2, packH_ok value hv.1 hv.2]
      exact ⟨_, rfl⟩

/-- C3 counterexample: `write_single_register(0, 0x10000)` fails with
`struct.error` under both settings of the signed flag — neither an
InvalidQuantity nor an IllegalValue error, and not a PDU. -/
theorem C3_struct_error_counterexample :
    write_single_register 0 0x10000 true = .error .structError ∧
    write_single_register 0 0x10000 false = .error .structError := by
  decide

/-- C4: each read-request builder emits, for every quantity inside its
range (1..2000 for coils/discrete inputs, 1..125 for holding/input
registers), the 5-byte big-endian PDU `code(1) · address(2) · quantity(2)`
whose quantity field recombines to the argument, and rejects every quantity
outside the range with the InvalidQuantity `ValueError`. -/
theorem C4_read_request_pdus (addr q : Int) (ha0 : 0 ≤ addr)
    (ha1 : addr ≤ 0xFFFF) :
    ((1 ≤ q ∧ q ≤ 2000) →
      read_coils addr q =
        .ok [1, addr.toNat / 256, addr.toNat % 256, q.toNat / 256, q.toNat % 256] ∧
      ((q.toNat / 256 : Int) * 256 + (q.toNat % 256 : Nat) = q)) ∧
    (¬ (1 ≤ q ∧ q ≤ 2000) →
      read_coils addr q = .error (.valueError "Invalid number of coils")) ∧
    ((1 ≤ q ∧ q ≤ 2000) →
      read_discrete_inputs addr q =
        .ok [2, addr.toNat / 256, addr.toNat % 256, q.toNat / 256, q.toNat % 256]) ∧
    (¬ (1 ≤ q ∧ q ≤ 2000) →
      read_discrete_inputs addr q =
        .error (.valueError "Invalid number of discrete inputs")) ∧
    ((1 ≤ q ∧ q ≤ 125) →
      read_holding_registers addr q =
        .ok [3, addr.toNat / 256, addr.toNat % 256, q.toNat / 256, q.toNat % 256]) ∧
    (¬ (1 ≤ q ∧ q ≤ 125) →
      read_holding_registers addr q =
        .error (.valueError "Invalid number of holding registers")) ∧
    ((1 ≤ q ∧ q ≤ 125) →
      read_input_registers addr q =
        .ok [4, addr.toNat / 256, addr.toNat % 256, q.toNat / 256, q.toNat % 256]) ∧
    (¬ (1 ≤ q ∧ q ≤ 125) →
      read_input_registers addr q =
        .error (.valueError "Invalid number of input registers")) := by
  refine ⟨?_, ?_, ?_, ?_, ?_, ?_, ?_, ?_⟩
  · intro hq
    exact ⟨read_coils_ok addr q ha0 ha1 hq, by omega⟩
  · intro hq
    rw [read_coils, if_pos hq]
  · exact read_discrete_inputs_ok addr q ha0 ha1
  · intro hq
    rw [read_discrete_inputs, if_pos hq]
  · exact read_holding_registers_ok addr q ha0 ha1
  · intro hq
    rw [read_holding_registers, if_pos hq]
  · exact read_input_registers_ok addr q ha0 ha1
  · intro hq
    rw [read_input_registers, if_pos hq]

/-- C4 witness: ReadCoils with quantity 2000 succeeds with the quantity
field bytes `0x07 0xD0`, and quantity 2001 raises InvalidQuantity. -/
theorem C4_read_request_pdus_witness :
    read_coils 0 2000 = .ok [1, 0, 0, 7, 208] ∧
    read_coils 0 2001 = .error (.valueError "Invalid number of coils") := by
  have h1 := C4_read_request_pdus 0 2000 (by decide) (by decide)
  have h2 := C4_read_request_pdus 0 2001 (by decide) (by decide)
  constructor
  · have := (h1.1 (by decide)).1
    simpa using this
  · exact h2.2.1 (by decide)

/-- C5 (amended): `write_single_coil` encodes boolean true — and the integer
1, which Python compares equal to `True` — as `0xFF00`, and boolean false
and `0x0000` as `0x0000`; every value comparing equal to none of `0x0000`,
`1` and `0xFF00` raises the IllegalValue `ValueError`.  So the integer 1 is
accepted, contrary to the claim that every value other than boolean
true/false, 0x0000 and 0xFF00 raises. -/
theorem C5_write_single_coil_values (addr : Int) :
    write_single_coil addr (.boolVal true) = write_single_coil addr (.intVal 0xFF00) ∧
    write_single_coil addr (.boolVal false) = write_single_coil addr (.intVal 0x0000) ∧
    write_single_coil addr (.intVal 1) = write_single_coil addr (.boolVal true) ∧
    ∀ v : PyVal, ¬ (v.toInt = 0x0000 ∨ v.toInt = 1 ∨ v.toInt = 0xFF00) →
      write_single_coil addr v = .error (.valueError "Illegal coil value") := by
  refine ⟨rfl, rfl, rfl, ?_⟩
  intro v hv
  rw [write_single_coil]
  rw [if_pos]
  intro hmem
  rcases hmem with h | h | h
  · exact hv (Or.inl h)
  · exact hv (Or.inr (Or.inr h))
  · exact hv (Or.inr (Or.inl h))

/-- C5 counterexample: the integer 1 — a value other than boolean
true/false, 0x0000 and 0xFF00 — does not raise IllegalValue: Python
evaluates `1 in [0x0000, 0xFF00, True]` to true, so 1 is normalised to
0xFF00 and encoded. -/
theorem C5_int_one_counterexample :
    write_single_coil 0 (.intVal 1) = .ok [5, 0, 0, 255, 0] := by
  decide

/-- C5 witness: at address 0, boolean true encodes like 0xFF00 and the
integer 5 raises IllegalValue. -/
theorem C5_write_single_coil_values_witness :
    write_single_coil 0 (.boolVal true) = write_single_coil 0 (.intVal 0xFF00) ∧
    write_single_coil 0 (.intVal 5) = .error (.valueError "Illegal coil value") := by
  have h := C5_write_single_coil_values 0
  exact ⟨h.1, h.2.2.2 (.intVal 5) (by decide)⟩

/-- C6: `write_multiple_coils` accepts exactly bit lists of length 1..1968,
emitting the byte-count field `((len - 1) / 8) + 1` at offset 5 of the PDU,
and `write_multiple_registers` accepts exactly in-range register lists of
length 1..123, emitting the byte-count field `2 * quantity`; outside those
lengths both raise the InvalidQuantity `ValueError`. -/
theorem C6_write_multiple_bounds (addr : Int) (coils regs : List Int)
    (signed : Bool) (ha0 : 0 ≤ addr) (ha1 : addr ≤ 0xFFFF)
    (hcb : ∀ b ∈ coils, b = 0 ∨ b = 1)
    (hrv : ∀ v ∈ regs, if signed then -0x8000 ≤ v ∧ v ≤ 0x7FFF
                       else 0 ≤ v ∧ v ≤ 0xFFFF) :
    ((1 ≤ coils.length ∧ coils.length ≤ 1968) →
      ∃ tail, write_multiple_coils addr coils =
        .ok ([15, addr.toNat / 256, addr.toNat % 256,
              coils.length / 256, coils.length % 256,
              (coils.length - 1) / 8 + 1] ++ tail)) ∧
    (¬ (1 ≤ coils.length ∧ coils.length ≤ 1968) →
      write_multiple_coils addr coils =
        .error (.valueError "Invalid quantity of outputs")) ∧
    ((1 ≤ regs.length ∧ regs.length ≤ 123) →
      ∃ tail, write_multiple_registers addr regs signed =
        .ok ([16, addr.toNat / 256, addr.toNat % 256,
              regs.length / 256, regs.length % 256,
              2 * regs.length] ++ tail)) ∧
    (¬ (1 ≤ regs.length ∧ regs.length ≤ 123) →
      write_multiple_registers addr regs signed =
        .error (.valueError "Invalid number of registers")) := by
  refine ⟨?_, ?_, ?_, ?_⟩
  · intro hq
    obtain ⟨bs, hbs⟩ :=
      packBytes_ok (coil_to_bytes coils) (coil_to_bytes_range coils hcb)
    refine ⟨bs, ?_⟩
    rw [write_multiple_coils, if_neg (not_not_intro hq)]
    rw [show WRITE_MULTIPLE_COILS = (15 : Int) from rfl]
    rw [packB_ok 15 (by omega) (by omega), packH_ok addr ha0 ha1,
      packH_ok (coils.length : Int) (by omega) (by omega)]
    have hfd : Int.fdiv ((coils.length : Int) - 1) 8 + 1 =
        (((coils.length - 1) / 8 + 1 : Nat) : Int) := by
      rw [show ((coils.length : Int) - 1) = ((coils.length - 1 : Nat) : Int) by omega,
        show (8 : Int) = ((8 : Nat) : Int) from rfl, ← Int.ofNat_fdiv]
      push_cast
      ring
    rw [hfd, packB_ok _ (by omega) (by omega), hbs]
    rfl
  · intro hq
    rw [write_multiple_coils, if_pos hq]
  · intro hq
    obtain ⟨bs, hbs⟩ := packRegsUniform_ok signed regs hrv
    refine ⟨bs, ?_⟩
    rw [write_multiple_registers, if_neg (not_not_intro hq)]
    rw [show WRITE_MULTIPLE_REGISTERS = (16 : Int) from rfl]
    rw [packB_ok 16 (by omega) (by omega), packH_ok addr ha0 ha1,
      packH_ok (regs.length : Int) (by omega) (by omega)]
    rw [packB_ok (2 * (regs.length : Int)) (by omega) (by omega), hbs]
    rfl
  · intro hq
    rw [write_multiple_registers, if_pos hq]

/-- C6 witness: 1968 coils are accepted (byte count 246), 1969 raise
InvalidQuantity; one register is accepted with byte count 2, an empty
register list raises InvalidQuantity. -/
theorem C6_write_multiple_bounds_witness :
    (∃ tail, write_multiple_coils 0 (List.replicate 1968 1) =
      .ok ([15, 0, 0, 7, 176, 246] ++ tail)) ∧
    write_multiple_coils 0 (List.replicate 1969 1) =
      .error (.valueError "Invalid quantity of outputs") ∧
    (∃ tail, write_multiple_registers 0 [1] true =
      .ok ([16, 0, 0, 0, 1, 2] ++ tail)) ∧
    write_multiple_registers 0 [] true =
      .error (.valueError "Invalid number of registers") := by
  have hbits : ∀ n : Nat, ∀ b ∈ List.replicate n (1 : Int), b = 0 ∨ b = 1 := by
    intro n b hb
    exact Or.inr (List.eq_of_mem_replicate hb)
  have h1 := C6_write_multiple_bounds 0 (List.replicate 1968 1) [1] true
    (by decide) (by decide) (hbits 1968) (by decide)
  have h2 := C6_write_multiple_bounds 0 (List.replicate 1969 1) [] true
    (by decide) (by decide) (hbits 1969) (by decide)
  refine ⟨?_, ?_, ?_, ?_⟩
  · obtain ⟨tail, htail⟩ := h1.1 (by rw [List.length_replicate]; omega)
    refine ⟨tail, ?_⟩
    rw [htail]
    simp only [List.length_replicate, Int.toNat_zero]
  · exact h2.2.1 (by rw [List.length_replicate]; omega)
  · obtain ⟨tail, htail⟩ := h1.2.2.1 (by decide)
    refine ⟨tail, ?_⟩
    rw [htail]
    norm_num
  · exact h2.2.2.2 (by decide)

/-- C7: for a 4-byte response, `validate_resp_data` on WriteSingleCoil or
WriteSingleRegister returns true exactly when the decoded unsigned 16-bit
address equals the expected address and the decoded 16-bit field (signed or
unsigned per the flag) equals the expected value; on WriteMultipleCoils or
WriteMultipleRegisters it compares the decoded field against the expected
quantity instead; every other function code yields false for any buffer. -/
theorem C7_validate_match (b0 b1 b2 b3 : Nat) (addr : Int)
    (value quantity : Option Int) (signed : Bool) :
    (validate_resp_data [b0, b1, b2, b3] WRITE_SINGLE_COIL addr value quantity signed =
      .ok (decide (addr = unpackHu b0 b1 ∧
        value = some (if signed then unpackHs b2 b3 else unpackHu b2 b3)))) ∧
    (validate_resp_data [b0, b1, b2, b3] WRITE_SINGLE_REGISTER addr value quantity signed =
      .ok (decide (addr = unpackHu b0 b1 ∧
        value = some (if signed then unpackHs b2 b3 else unpackHu b2 b3)))) ∧
    (validate_resp_data [b0, b1, b2, b3] WRITE_MULTIPLE_COILS addr value quantity signed =
      .ok (decide (addr = unpackHu b0 b1 ∧
        quantity = some (if signed then unpackHs b2 b3 else unpackHu b2 b3)))) ∧
    (validate_resp_data [b0, b1, b2, b3] WRITE_MULTIPLE_REGISTERS addr value quantity signed =
      .ok (decide (addr = unpackHu b0 b1 ∧
        quantity = some (if signed then unpackHs b2 b3 else unpackHu b2 b3)))) ∧
    (∀ fc : Int, fc ≠ WRITE_SINGLE_COIL → fc ≠ WRITE_SINGLE_REGISTER →
      fc ≠ WRITE_MULTIPLE_COILS → fc ≠ WRITE_MULTIPLE_REGISTERS →
      ∀ data : List Nat,
        validate_resp_data data fc addr value quantity signed = .ok false) := by
  refine ⟨?_, ?_, ?_, ?_, ?_⟩
  · rw [validate_resp_data.eq_def, if_pos (Or.inl rfl)]
    dsimp only
    by_cases hP : addr = unpackHu b0 b1 ∧
        value = some (if signed then unpackHs b2 b3 else unpackHu b2 b3)
    · simp [hP]
    · simp [hP]
  · rw [validate_resp_data.eq_def, if_pos (Or.inr rfl)]
    dsimp only
    by_cases hP : addr = unpackHu b0 b1 ∧
        value = some (if signed then unpackHs b2 b3 else unpackHu b2 b3)
    · simp [hP]
    · simp [hP]
  · rw [validate_resp_data.eq_def,
      if_neg (by decide : ¬ (WRITE_MULTIPLE_COILS = WRITE_SINGLE_COIL ∨
        WRITE_MULTIPLE_COILS = WRITE_SINGLE_REGISTER)),
      if_pos (Or.inl rfl)]
    dsimp only
    by_cases hP : addr = unpackHu b0 b1 ∧
        quantity = some (if signed then unpackHs b2 b3 else unpackHu b2 b3)
    · simp [hP]
    · simp [hP]
  · rw [validate_resp_data.eq_def,
      if_neg (by decide : ¬ (WRITE_MULTIPLE_REGISTERS = WRITE_SINGLE_COIL ∨
        WRITE_MULTIPLE_REGISTERS = WRITE_SINGLE_REGISTER)),
      if_pos (Or.inr rfl)]
    dsimp only
    by_cases hP : addr = unpackHu b0 b1 ∧
        quantity = some (if signed then unpackHs b2 b3 else unpackHu b2 b3)
    · simp [hP]
    · simp [hP]
  · intro fc h5 h6 h15 h16 data
    rw [validate_resp_data.eq_def,
      if_neg (not_or.mpr ⟨h5, h6⟩), if_neg (not_or.mpr ⟨h15, h16⟩)]

/-- C7 witness: the response `[0, 1, 255, 0]` validates a
WriteSingleRegister request for address 1 and signed value -256, and
validates nothing for the read function code 3. -/
theorem C7_validate_match_witness :
    validate_resp_data [0, 1, 255, 0] WRITE_SINGLE_REGISTER 1 (some (-256)) none true =
      .ok true ∧
    validate_resp_data [0, 1, 255, 0] READ_HOLDING_REGISTERS 1 (some (-256)) none true =
      .ok false := by
  have h := C7_validate_match 0 1 255 0 1 (some (-256)) none true
  constructor
  · rw [h.2.1]
    decide
  · exact h.2.2.2.2 READ_HOLDING_REGISTERS (by decide) (by decide) (by decide)
      (by decide) [0, 1, 255, 0]

/-- C8: for every function code below 0x80 and exception code fitting one
byte, `exception_response` returns exactly the two bytes
`(functionCode | 0x80) · exceptionCode`; the source computes
`ERROR_BIAS + function_code`, which for codes below 0x80 coincides with
setting the high bit. -/
theorem C8_exception_pdu (fc ec : Int) (h1 : 0 ≤ fc) (h2 : fc < 0x80)
    (h3 : 0 ≤ ec) (h4 : ec ≤ 0xFF) :
    exception_response fc ec = .ok [fc.toNat ||| 0x80, ec.toNat] := by
  rw [exception_response, show ERROR_BIAS = (0x80 : Int) from rfl]
  rw [packB_ok (0x80 + fc) (by omega) (by omega), packB_ok ec h3 h4]
  show Except.ok ((0x80 + fc).toNat :: [ec.toNat]) = _
  have hor : (0x80 + fc).toNat = fc.toNat ||| 0x80 := by
    have hlt : fc.toNat < 128 := by omega
    have h128 : ∀ m, m < 128 → m ||| 128 = m + 128 := by decide
    have := h128 fc.toNat hlt
    omega
  rw [hor]

/-- C8 witness: `exception_response 3 2` is the byte pair `[0x83, 0x02]`. -/
theorem C8_exception_pdu_witness :
    exception_response 3 2 = .ok [0x83, 0x02] := by
  have h := C8_exception_pdu 3 2 (by decide) (by decide) (by decide) (by decide)
  rw [h]
  decide

/-- C10: calling `response` with a function code outside the eight known
Modbus codes falls through every branch: it neither returns a PDU nor
raises; Python returns `None`. -/
theorem C10_unknown_code_none (fc : Int)
    (h : fc ∉ ([0x01, 0x02, 0x03, 0x04, 0x05, 0x06, 0x0F, 0x10] : List Int))
    (addr qty : Int) (request_data : List Int)
    (value_list : Option (List Int)) (signed : SignedArg) :
    response fc addr qty request_data value_list signed = .ok none := by
  simp only [List.mem_cons, List.mem_singleton, not_or] at h
  obtain ⟨h1, h2, h3, h4, h5, h6, h7, h8, -⟩ := h
  rw [response.eq_def]
  rw [if_neg (by simp [READ_COILS, READ_DISCRETE_INPUTS]; exact ⟨h1, h2⟩)]
  rw [if_neg (by simp [READ_HOLDING_REGISTERS, READ_INPUT_REGISTER]; exact ⟨h3, h4⟩)]
  rw [if_neg (by simp [WRITE_SINGLE_COIL, WRITE_SINGLE_REGISTER]; exact ⟨h5, h6⟩)]
  rw [if_neg (by simp [WRITE_MULTIPLE_COILS, WRITE_MULTIPLE_REGISTERS]; exact ⟨h7, h8⟩)]

/-- C10 witness: the unknown function code 7 makes `response` return `None`
whatever else is passed. -/
theorem C10_unknown_code_none_witness :
    response 7 3 4 [255, 0] (some [1, 0]) (.uniform true) = .ok none :=
  C10_unknown_code_none 7 (by decide) 3 4 [255, 0] (some [1, 0]) (.uniform true)

end UModbus
